import Mathlib

/-!
Verification of the reverse-proxy handler of pigeonligh/srp.

Strings from the Go source are embedded as lists of characters
(`Str := List Char`); Go maps as association lists with map semantics;
goroutine bodies as explicit state-transition functions.  Every
definition below is translated from the Go source of the repository
(package `reverseproxy` and the Go standard-library functions it calls).
-/

namespace SRP

/-- Go strings, embedded as lists of characters. -/
abbrev Str := List Char

/-! ## Go standard-library string helpers used by the handler -/

/-- Embeds strings.TrimPrefix(s, "/"): drops one leading slash if present. -/
def trimLeadSlash (l : Str) : Str :=
  match l with
  | '/' :: r => r
  | _ => l

/-- Embeds strings.Cut(s, "/"): splits at the first slash.
Returns none when no slash occurs (Go's found = false). -/
def cutSlash : Str → Option (Str × Str)
  | [] => none
  | c :: r =>
    if c = '/' then some ([], r)
    else (cutSlash r).map (fun pr => (c :: pr.1, pr.2))

/-- One decimal digit character, as produced by Go's strconv formatting. -/
def dChar (d : Nat) : Char := Char.ofNat (48 + d)

/-- Reversed decimal digits of a positive number (least significant first). -/
def decRev (n : Nat) : List Char :=
  if n = 0 then []
  else dChar (n % 10) :: decRev (n / 10)
decreasing_by exact Nat.div_lt_self (Nat.pos_of_ne_zero (by assumption)) (by decide)

/-- Decimal representation of a natural number, as Go's strconv.Itoa prints it. -/
def decimalOf (n : Nat) : Str :=
  if n = 0 then ['0'] else (decRev n).reverse

/-- Digit-accumulating loop of Go's strconv.ParseUint (base 10). -/
def puGo (acc : Nat) : Str → Option Nat
  | [] => some acc
  | c :: r =>
    if 48 ≤ c.toNat ∧ c.toNat ≤ 57 then puGo (acc * 10 + (c.toNat - 48)) r
    else none

/-- Embeds strconv.ParseUint(s, 10, 64) up to the returned magnitude:
none on empty input or any non-digit character. -/
def parseUintGo (s : Str) : Option Nat :=
  if s = [] then none else puGo 0 s

/-- Magnitude-to-int step of strconv.ParseInt: clamps to the int64 range on
overflow (Go returns the clamped value together with ErrRange). -/
def atoiMag (neg : Bool) (digits : Str) : Int :=
  match parseUintGo digits with
  | none => 0
  | some v =>
    if neg then max (-(v : Int)) (-(2 ^ 63))
    else min (v : Int) (2 ^ 63 - 1)

/-- Embeds the value returned by strconv.Atoi when its error is discarded:
0 on a syntax error, the clamped int64 on a range error. -/
def atoiGo (s : Str) : Int :=
  match s with
  | [] => 0
  | c :: rest =>
    if c = '+' then atoiMag false rest
    else if c = '-' then atoiMag true rest
    else atoiMag false (c :: rest)

/-! ## Go path/filepath helpers (Unix rules) used by ConvertHostPortToSocket -/

/-- True when the path begins with the path separator (rooted). -/
def isRooted (l : Str) : Bool :=
  match l with
  | c :: _ => decide (c = '/')
  | [] => false

/-- Splits a path into its slash-separated segments. -/
def splitSlash : Str → List Str
  | [] => [[]]
  | c :: r =>
    if c = '/' then [] :: splitSlash r
    else (c :: (splitSlash r).headI) :: (splitSlash r).tail

/-- One segment step of filepath.Clean's element loop: empty and dot segments
are dropped, dot-dot pops the pending segment stack (kept reversed), other
segments are pushed. -/
def cleanStep (rooted : Bool) (stack : List Str) (seg : Str) : List Str :=
  if seg = [] ∨ seg = ['.'] then stack
  else if seg = ['.', '.'] then
    match stack with
    | top :: rest =>
      if top = ['.', '.'] then (if rooted then stack else seg :: stack)
      else rest
    | [] => if rooted then [] else [seg]
  else seg :: stack

/-- Processes all segments of a path through cleanStep. -/
def cleanFold (rooted : Bool) (stack : List Str) (segs : List Str) : List Str :=
  segs.foldl (cleanStep rooted) stack

/-- Joins segments with slashes, as the output buffer of filepath.Clean does. -/
def joinSlash : List Str → Str
  | [] => []
  | [x] => x
  | x :: y :: rest => x ++ '/' :: joinSlash (y :: rest)

/-- Embeds filepath.Clean for Unix paths. -/
def cleanList (p : Str) : Str :=
  if p = [] then ['.']
  else
    let rooted := isRooted p
    let out :=
      (if rooted then ['/'] else []) ++
        joinSlash (cleanFold rooted [] (splitSlash p)).reverse
    if out = [] then ['.'] else out

/-- Embeds filepath.Join(a, b) on Unix: Clean of the slash-joined non-empty
elements, empty string when both are empty. -/
def filepathJoin (a b : Str) : Str :=
  if a = [] then (if b = [] then [] else cleanList b)
  else cleanList (a ++ '/' :: b)

/-! ## Go net package helpers -/

/-- Index of the last occurrence of a character (Go's last(s, b)). -/
def lastIdx (c : Char) : Str → Option Nat
  | [] => none
  | x :: r =>
    match lastIdx c r with
    | some i => some (i + 1)
    | none => if x = c then some 0 else none

/-- Index of the first occurrence of a character (Go's bytealg.IndexByteString). -/
def firstIdx (c : Char) : Str → Option Nat
  | [] => none
  | x :: r => if x = c then some 0 else (firstIdx c r).map (· + 1)

/-- Embeds net.SplitHostPort.  All of Go's error returns (missing port, too
many colons, bracket errors) are collapsed to none. -/
def splitHostPort (hp : Str) : Option (Str × Str) :=
  match lastIdx ':' hp with
  | none => none
  | some i =>
    match hp with
    | '[' :: _ =>
      match firstIdx ']' hp with
      | none => none
      | some endi =>
        if endi + 1 = hp.length then none
        else if ¬ (endi + 1 = i) then none
        else if '[' ∈ hp.drop 1 then none
        else if ']' ∈ hp.drop (endi + 1) then none
        else some ((hp.drop 1).take (endi - 1), hp.drop (i + 1))
    | _ =>
      let host := hp.take i
      if ':' ∈ host then none
      else if '[' ∈ hp then none
      else if ']' ∈ hp then none
      else some (host, hp.drop (i + 1))

/-- Embeds net.JoinHostPort: brackets the host when it contains a colon. -/
def joinHostPort (host port : Str) : Str :=
  if ':' ∈ host then '[' :: host ++ ']' :: ':' :: port
  else host ++ ':' :: port

/-! ## The handler's pure conversion functions (source part_000, lines 102-125) -/

/-- Embeds handler.ConvertBindAddressToHostPort: trim one leading slash, cut
at the next slash, require the Atoi value of the trailing segment to be
positive (the Atoi error is discarded by the source). -/
def convertBindAddressToHostPort (bindAddress : Str) : Option (Str × Str) :=
  match cutSlash (trimLeadSlash bindAddress) with
  | none => none
  | some (host, portString) =>
    if atoiGo portString ≤ 0 then none
    else some (host, portString)

/-- The file name fmt.Sprintf("%v_%v.sock", host, port) built by
ConvertHostPortToSocket. -/
def socketFileName (host port : Str) : Str :=
  host ++ '_' :: (port ++ ['.', 's', 'o', 'c', 'k'])

/-- Embeds handler.ConvertHostPortToSocket: filepath.Join of the handler's
unix directory and the formatted file name; the boolean is always true. -/
def convertHostPortToSocket (dir host port : Str) : Str × Bool :=
  (filepathJoin dir (socketFileName host port), true)

/-- Embeds handler.ConvertBindAddressToSocket: parse then convert. -/
def convertBindAddressToSocket (dir bindAddress : Str) : Option Str :=
  match convertBindAddressToHostPort bindAddress with
  | some (host, port) =>
    let sk := convertHostPortToSocket dir host port
    if sk.2 then some sk.1 else none
  | none => none

/-! ## Handler state: the forwards registry and listener bookkeeping

The Go handler owns `forwards map[string]net.Listener` guarded by a mutex.
Listeners are embedded as numeric identifiers handed out by a counter; the
set of identifiers whose Close method has been called is tracked so that
teardown claims are statable.  Each map mutation in the source happens under
the handler lock, so the lock itself needs no embedding: handler operations
are functions on this state. -/

/-- Association-list lookup with Go map semantics. -/
def lookupA (k : Str) : List (Str × Nat) → Option Nat
  | [] => none
  | kv :: rest => if kv.1 = k then some kv.2 else lookupA k rest

/-- Association-list insert with Go map semantics (overwrite on existing key). -/
def insertA (k : Str) (v : Nat) : List (Str × Nat) → List (Str × Nat)
  | [] => [(k, v)]
  | kv :: rest => if kv.1 = k then (k, v) :: rest else kv :: insertA k v rest

/-- Association-list delete with Go map semantics. -/
def eraseA (k : Str) (m : List (Str × Nat)) : List (Str × Nat) :=
  m.filter fun kv => decide (kv.1 ≠ k)

/-- Records a listener identifier as closed; closing an already closed
listener is a swallowed error in the source, hence a no-op here. -/
def insertClosed (i : Nat) (closed : List Nat) : List Nat :=
  if i ∈ closed then closed else i :: closed

/-- The mutable state of one handler instance. -/
structure ServerState where
  forwards : List (Str × Nat)
  closed : List Nat
  nextId : Nat
deriving DecidableEq, Repr

/-- The slice of an ssh.Context the handler reads and writes: the user name
and the value stored under protocol.ContextKeyReverseProxyAuthed (none when
the key was never set; the source's discarded type assertion also yields
false for a non-boolean value). -/
structure Ctx where
  user : Str
  authedVal : Option Bool
deriving DecidableEq, Repr

/-- The boolean the source reads by `authed, _ := ctx.Value(key).(bool)`. -/
def Ctx.authed (c : Ctx) : Bool := c.authedVal.getD false

/-- Payload of a tcpip-forward / cancel-tcpip-forward global request
(protocol.RemoteForwardRequest and protocol.RemoteForwardCancelRequest have
the same two fields). -/
structure RemoteForwardRequest where
  bindUnixSocket : Str
  bindPort : Nat
deriving DecidableEq, Repr

/-- A global request as the handler dispatches it: the request type string
together with the result of gossh.Unmarshal on its payload (none when
unmarshalling fails). -/
inductive SSHRequest where
  | forwardReq (payload : Option RemoteForwardRequest)
  | cancelReq (payload : Option RemoteForwardRequest)
  | otherReq
deriving DecidableEq, Repr

/-- The authorizer consultation in the forward branch: a nil authorizer
accepts everything, otherwise Authorize is called with the user and
net.JoinHostPort(host, port). -/
def authzCheck (authorizer : Option (Str → Str → Bool)) (user target : Str) : Bool :=
  match authorizer with
  | none => true
  | some a => a user target

/-- Embeds handler.HandleSSHRequest (source part_000, lines 134-233).
`listenOk` is the outcome of net.Listen("unix", socket) for this call; on
success the fresh listener is `st.nextId`.  The reply is the (bool, payload)
pair returned to the SSH engine; denials return an empty payload and accepts
return nil, both embedded as the empty list.  The two goroutines spawned by
the forward branch are embedded separately as supervisorOnDone and
ingressLoopExit. -/
def handleSSHRequest (authorizer : Option (Str → Str → Bool)) (dir : Str)
    (ctx : Ctx) (req : SSHRequest) (listenOk : Bool) (st : ServerState) :
    (Bool × List Nat) × ServerState :=
  if ctx.authed then
    match req with
    | .forwardReq none => ((false, []), st)
    | .forwardReq (some p) =>
      match convertBindAddressToHostPort p.bindUnixSocket with
      | none => ((false, []), st)
      | some (host, port) =>
        if authzCheck authorizer ctx.user (joinHostPort host port) then
          let socket := (convertHostPortToSocket dir host port).1
          if listenOk then
            ((true, []), ⟨insertA socket st.nextId st.forwards, st.closed, st.nextId + 1⟩)
          else ((false, []), st)
        else ((false, []), st)
    | .cancelReq none => ((false, []), st)
    | .cancelReq (some p) =>
      match convertBindAddressToSocket dir p.bindUnixSocket with
      | none => ((false, []), st)
      | some socket =>
        match lookupA socket st.forwards with
        | some ln => ((true, []), ⟨st.forwards, insertClosed ln st.closed, st.nextId⟩)
        | none => ((true, []), st)
    | .otherReq => ((false, []), st)
  else ((false, []), st)

/-- Embeds the ctx.Done goroutine (source lines 178-186): when the session
ends, close the listener currently registered for the socket, if any. -/
def supervisorOnDone (socket : Str) (st : ServerState) : ServerState :=
  match lookupA socket st.forwards with
  | some ln => ⟨st.forwards, insertClosed ln st.closed, st.nextId⟩
  | none => st

/-- Embeds the tail of the accept-loop goroutine (source lines 188-201): when
Accept fails — which is what closing the listener causes — the loop breaks
and deletes the socket's entry from the forwards map. -/
def ingressLoopExit (socket : Str) (st : ServerState) : ServerState :=
  ⟨eraseA socket st.forwards, st.closed, st.nextId⟩

/-- Embeds handler.SocketAlive: membership of the socket in the forwards map. -/
def socketAlive (socket : Str) (st : ServerState) : Bool :=
  (lookupA socket st.forwards).isSome

/-- The value handler.ProxyProvide wraps the socket in: proxy.UnixSocket. -/
inductive GoProxy where
  | unixSocket (socket : Str)
deriving DecidableEq, Repr

/-- Embeds handler.ProxyProvide (source lines 235-245).  The two Go error
returns (SplitHostPort failure and the unreachable invalid-target branch)
are collapsed to Except.error (). -/
def proxyProvide (dir target : Str) : Except Unit GoProxy :=
  match splitHostPort target with
  | none => Except.error ()
  | some (host, port) =>
    let sk := convertHostPortToSocket dir host port
    if sk.2 then Except.ok (GoProxy.unixSocket sk.1)
    else Except.error ()

/-- Embeds handler.ProxyReadiness (source lines 247-257). -/
def proxyReadiness (dir target : Str) (st : ServerState) : Bool :=
  match splitHostPort target with
  | none => false
  | some (host, port) =>
    let sk := convertHostPortToSocket dir host port
    if sk.2 then socketAlive sk.1 st else false

/-! ## Authentication handlers (source lines 68-100) -/

/-- The request the handlers pass to Authenticator.Authenticate; public keys
are embedded as numeric identifiers. -/
structure AuthenticateRequest where
  user : Str
  password : Str
  publicKey : Option Nat
deriving DecidableEq, Repr

/-- Embeds the closure returned by handler.PasswordHandler: a nil
authenticator accepts; the verdict is stored on the context under the auth
key and returned. -/
def passwordHandlerRun (authenticator : Option (AuthenticateRequest → Bool))
    (ctx : Ctx) (password : Str) : Ctx × Bool :=
  let ret :=
    match authenticator with
    | none => true
    | some a => a ⟨ctx.user, password, none⟩
  (⟨ctx.user, some ret⟩, ret)

/-- Embeds the closure returned by handler.PublicKeyHandler. -/
def publicKeyHandlerRun (authenticator : Option (AuthenticateRequest → Bool))
    (ctx : Ctx) (key : Nat) : Ctx × Bool :=
  let ret :=
    match authenticator with
    | none => true
    | some a => a ⟨ctx.user, [], some key⟩
  (⟨ctx.user, some ret⟩, ret)

/-! ## Helper lemmas -/

/-- A context whose auth value is not the boolean true reads as unauthenticated. -/
lemma authed_false_of_not_true {c : Ctx} (h : ¬ c.authedVal = some true) :
    c.authed = false := by
  cases hv : c.authedVal with
  | none => simp [Ctx.authed, hv]
  | some b =>
    cases b with
    | false => simp [Ctx.authed, hv]
    | true => exact absurd hv h

/-- Closing a listener twice leaves the closed set unchanged. -/
lemma insertClosed_idem (i : Nat) (c : List Nat) :
    insertClosed i (insertClosed i c) = insertClosed i c := by
  by_cases h : i ∈ c
  · simp [insertClosed, h]
  · simp [insertClosed, h]

/-- The closed listener is recorded in the closed set. -/
lemma mem_insertClosed (i : Nat) (c : List Nat) : i ∈ insertClosed i c := by
  by_cases h : i ∈ c
  · simp [insertClosed, h]
  · simp [insertClosed, h]

/-- Deleting a key from the map makes its lookup fail. -/
lemma lookupA_eraseA (k : Str) : ∀ m, lookupA k (eraseA k m) = none
  | [] => rfl
  | kv :: rest => by
    by_cases h : kv.1 = k
    · simpa [eraseA, List.filter_cons, h] using lookupA_eraseA k rest
    · simpa [eraseA, List.filter_cons, h, lookupA] using lookupA_eraseA k rest

/-! ## Claims about the auth gate and the forward branch -/

/-- C1: for every tcpip-forward request and every payload (valid or not), if
the session context's authentication flag is not set to true, HandleSSHRequest
returns the denial (false, empty reply) and the handler state — in particular
the forwards registry map — is unchanged. -/
theorem auth_gate_forward_denied (authorizer : Option (Str → Str → Bool))
    (dir : Str) (ctx : Ctx) (payload : Option RemoteForwardRequest)
    (listenOk : Bool) (st : ServerState)
    (h : ¬ ctx.authedVal = some true) :
    handleSSHRequest authorizer dir ctx (.forwardReq payload) listenOk st
      = ((false, []), st) := by
  simp [handleSSHRequest, authed_false_of_not_true h]

/-- Witness for auth_gate_forward_denied at a concrete unauthenticated context. -/
theorem auth_gate_forward_denied_witness :
    handleSSHRequest none [] ⟨['u'], none⟩
        (.forwardReq (some ⟨['/', 'a', '/', '1'], 0⟩)) true ⟨[], [], 0⟩
      = ((false, []), ⟨[], [], 0⟩) :=
  auth_gate_forward_denied none [] ⟨['u'], none⟩ _ true _ (by decide)

/-- C9: when the session's authentication flag is unset, HandleSSHRequest
denies every request — forward, cancel and unknown types alike — with
(false, empty reply), for every payload, and leaves the state unchanged;
the source returns before even inspecting the request type. -/
theorem unauthed_denies_all_request_types (authorizer : Option (Str → Str → Bool))
    (dir : Str) (ctx : Ctx) (req : SSHRequest) (listenOk : Bool) (st : ServerState)
    (h : ¬ ctx.authedVal = some true) :
    handleSSHRequest authorizer dir ctx req listenOk st = ((false, []), st) := by
  simp [handleSSHRequest, authed_false_of_not_true h]

/-- Witness for unauthed_denies_all_request_types at a concrete cancel request
on a context carrying the explicit value false. -/
theorem unauthed_denies_all_request_types_witness :
    handleSSHRequest none [] ⟨['u'], some false⟩
        (.cancelReq (some ⟨['/', 'a', '/', '1'], 0⟩)) true ⟨[(['k'], 7)], [], 9⟩
      = ((false, []), ⟨[(['k'], 7)], [], 9⟩) :=
  unauthed_denies_all_request_types none [] ⟨['u'], some false⟩ _ true _ (by decide)

/-- C7: when net.Listen fails while handling an authenticated, well-formed
and authorized tcpip-forward request, HandleSSHRequest denies the request
with (false, empty reply) and returns the state unchanged: no entry for the
derived key is inserted into the forwards map. -/
theorem listen_failure_denies_leaves_registry (authorizer : Option (Str → Str → Bool))
    (dir : Str) (ctx : Ctx) (p : RemoteForwardRequest) (st : ServerState)
    (host port : Str)
    (hauth : ctx.authedVal = some true)
    (hparse : convertBindAddressToHostPort p.bindUnixSocket = some (host, port))
    (hauthz : authzCheck authorizer ctx.user (joinHostPort host port) = true) :
    handleSSHRequest authorizer dir ctx (.forwardReq (some p)) false st
      = ((false, []), st) := by
  simp [handleSSHRequest, Ctx.authed, hauth, hparse, hauthz]

/-- Witness for listen_failure_denies_leaves_registry on a concrete request. -/
theorem listen_failure_denies_leaves_registry_witness :
    handleSSHRequest none [] ⟨['u'], some true⟩
        (.forwardReq (some ⟨['/', 'a', '/', '1'], 0⟩)) false ⟨[], [], 0⟩
      = ((false, []), ⟨[], [], 0⟩) :=
  listen_failure_denies_leaves_registry none [] ⟨['u'], some true⟩ ⟨['/', 'a', '/', '1'], 0⟩
    ⟨[], [], 0⟩ ['a'] ['1'] rfl (by decide) rfl

/-! ## Claims about the cancel branch -/

/-- C4: on an authenticated session, a cancel-tcpip-forward request whose
bind address parses is accepted whether or not the derived key is in the
registry, and handling the same cancel twice in a row returns the same
replies and the same final state as handling it once. -/
theorem cancel_accepts_and_idempotent (authorizer : Option (Str → Str → Bool))
    (dir : Str) (ctx : Ctx) (p : RemoteForwardRequest) (listenOk : Bool)
    (st : ServerState) (socket : Str)
    (hauth : ctx.authedVal = some true)
    (hsock : convertBindAddressToSocket dir p.bindUnixSocket = some socket) :
    (handleSSHRequest authorizer dir ctx (.cancelReq (some p)) listenOk st).1
        = (true, []) ∧
    handleSSHRequest authorizer dir ctx (.cancelReq (some p)) listenOk
        (handleSSHRequest authorizer dir ctx (.cancelReq (some p)) listenOk st).2
      = handleSSHRequest authorizer dir ctx (.cancelReq (some p)) listenOk st := by
  cases hlk : lookupA socket st.forwards with
  | none => simp [handleSSHRequest, Ctx.authed, hauth, hsock, hlk]
  | some ln =>
    simp [handleSSHRequest, Ctx.authed, hauth, hsock, hlk, insertClosed_idem]

/-- Witness for cancel_accepts_and_idempotent on a registry that does not
hold the cancelled key. -/
theorem cancel_accepts_and_idempotent_witness :
    (handleSSHRequest none [] ⟨['u'], some true⟩
        (.cancelReq (some ⟨['/', 'a', '/', '1'], 0⟩)) true ⟨[], [], 0⟩).1
        = (true, []) ∧
    handleSSHRequest none [] ⟨['u'], some true⟩
        (.cancelReq (some ⟨['/', 'a', '/', '1'], 0⟩)) true
        (handleSSHRequest none [] ⟨['u'], some true⟩
          (.cancelReq (some ⟨['/', 'a', '/', '1'], 0⟩)) true ⟨[], [], 0⟩).2
      = handleSSHRequest none [] ⟨['u'], some true⟩
          (.cancelReq (some ⟨['/', 'a', '/', '1'], 0⟩)) true ⟨[], [], 0⟩ :=
  cancel_accepts_and_idempotent none [] ⟨['u'], some true⟩ ⟨['/', 'a', '/', '1'], 0⟩
    true ⟨[], [], 0⟩ ['a', '_', '1', '.', 's', 'o', 'c', 'k'] rfl (by decide)

/-- C5: cancelling a key that is present closes that key's listener, and the
accept loop — which the close makes exit — then deletes the key's entry from
the forwards map: after the cancel branch the listener is recorded closed,
and after the loop's exit step the registry lookup for the key fails. -/
theorem cancel_closes_listener_and_removes_entry (authorizer : Option (Str → Str → Bool))
    (dir : Str) (ctx : Ctx) (p : RemoteForwardRequest) (listenOk : Bool)
    (st : ServerState) (socket : Str) (ln : Nat)
    (hauth : ctx.authedVal = some true)
    (hsock : convertBindAddressToSocket dir p.bindUnixSocket = some socket)
    (hlk : lookupA socket st.forwards = some ln) :
    ln ∈ (handleSSHRequest authorizer dir ctx (.cancelReq (some p)) listenOk st).2.closed ∧
    lookupA socket
        (ingressLoopExit socket
          (handleSSHRequest authorizer dir ctx (.cancelReq (some p)) listenOk st).2).forwards
      = none := by
  simp [handleSSHRequest, Ctx.authed, hauth, hsock, hlk, ingressLoopExit,
    mem_insertClosed, lookupA_eraseA]

/-- Witness for cancel_closes_listener_and_removes_entry on a one-entry registry. -/
theorem cancel_closes_listener_and_removes_entry_witness :
    7 ∈ (handleSSHRequest none [] ⟨['u'], some true⟩
        (.cancelReq (some ⟨['/', 'a', '/', '1'], 0⟩)) true
        ⟨[(['a', '_', '1', '.', 's', 'o', 'c', 'k'], 7)], [], 8⟩).2.closed ∧
    lookupA ['a', '_', '1', '.', 's', 'o', 'c', 'k']
        (ingressLoopExit ['a', '_', '1', '.', 's', 'o', 'c', 'k']
          (handleSSHRequest none [] ⟨['u'], some true⟩
            (.cancelReq (some ⟨['/', 'a', '/', '1'], 0⟩)) true
            ⟨[(['a', '_', '1', '.', 's', 'o', 'c', 'k'], 7)], [], 8⟩).2).forwards
      = none :=
  cancel_closes_listener_and_removes_entry none [] ⟨['u'], some true⟩
    ⟨['/', 'a', '/', '1'], 0⟩ true ⟨[(['a', '_', '1', '.', 's', 'o', 'c', 'k'], 7)], [], 8⟩
    ['a', '_', '1', '.', 's', 'o', 'c', 'k'] 7 rfl (by decide) (by decide)

/-! ## Claims about the lookup / readiness facade -/

/-- C2: ProxyReadiness returns false whenever net.SplitHostPort fails on the
target, and when the split succeeds with (h, p) it returns true exactly when
the key ConvertHostPortToSocket(h, p) is present in the forwards map of the
state at the time of the call. -/
theorem readiness_iff_registered (dir target : Str) (st : ServerState) :
    (splitHostPort target = none → proxyReadiness dir target st = false) ∧
    ∀ h p, splitHostPort target = some (h, p) →
      (proxyReadiness dir target st = true ↔
        lookupA (convertHostPortToSocket dir h p).1 st.forwards ≠ none) := by
  constructor
  · intro hs
    simp [proxyReadiness, hs]
  · intro h p hs
    simp [proxyReadiness, hs, convertHostPortToSocket, socketAlive,
      Option.isSome_iff_ne_none]

/-- Witness for readiness_iff_registered: a target without port fails the
split and reads not ready; a well-formed target reads ready exactly when its
key is registered. -/
theorem readiness_iff_registered_witness :
    proxyReadiness [] ['x'] ⟨[], [], 0⟩ = false ∧
    (proxyReadiness [] ['a', ':', '1'] ⟨[(['a', '_', '1', '.', 's', 'o', 'c', 'k'], 3)], [], 4⟩ = true ↔
      lookupA (convertHostPortToSocket [] ['a'] ['1']).1
        (⟨[(['a', '_', '1', '.', 's', 'o', 'c', 'k'], 3)], [], 4⟩ : ServerState).forwards ≠ none) :=
  ⟨(readiness_iff_registered [] ['x'] ⟨[], [], 0⟩).1 (by decide),
   (readiness_iff_registered [] ['a', ':', '1'] _).2 ['a'] ['1'] (by decide)⟩

/-- C6: ProxyProvide fails exactly when net.SplitHostPort fails on the
target; when the split succeeds it returns the unix-socket dialer for the
derived key.  The definition takes no registry state at all, and the third
conjunct records that it succeeds even when the key is absent from a
registry: the resolve never consults the forwards map. -/
theorem provide_error_iff_split_fails (dir target : Str) :
    (splitHostPort target = none → proxyProvide dir target = Except.error ()) ∧
    (∀ h p, splitHostPort target = some (h, p) →
      proxyProvide dir target
        = Except.ok (GoProxy.unixSocket (convertHostPortToSocket dir h p).1)) ∧
    (∀ h p (st : ServerState), splitHostPort target = some (h, p) →
      lookupA (convertHostPortToSocket dir h p).1 st.forwards = none →
      proxyProvide dir target
        = Except.ok (GoProxy.unixSocket (convertHostPortToSocket dir h p).1)) := by
  refine ⟨?_, ?_, ?_⟩
  · intro hs
    simp [proxyProvide, hs]
  · intro h p hs
    simp [proxyProvide, hs, convertHostPortToSocket]
  · intro h p st hs _
    simp [proxyProvide, hs, convertHostPortToSocket]

/-- Witness for provide_error_iff_split_fails: a portless target errors, a
well-formed target resolves to its socket dialer even on an empty registry. -/
theorem provide_error_iff_split_fails_witness :
    proxyProvide [] ['x'] = Except.error () ∧
    proxyProvide [] ['a', ':', '1']
      = Except.ok (GoProxy.unixSocket (convertHostPortToSocket [] ['a'] ['1']).1) :=
  ⟨(provide_error_iff_split_fails [] ['x']).1 (by decide),
   (provide_error_iff_split_fails [] ['a', ':', '1']).2.2 ['a'] ['1'] ⟨[], [], 0⟩
     (by decide) rfl⟩

/-! ## Claim about the authentication handlers -/

/-- C10: after the password handler or the public-key handler runs, the
context value under the authentication key equals exactly the boolean the
handler returns — for every prior context, so a denied attempt stores false
over any true recorded by an earlier successful attempt. -/
theorem auth_handlers_record_verdict (a : Option (AuthenticateRequest → Bool))
    (ctx : Ctx) (password : Str) (key : Nat) :
    (passwordHandlerRun a ctx password).1.authedVal
        = some (passwordHandlerRun a ctx password).2 ∧
    (publicKeyHandlerRun a ctx key).1.authedVal
        = some (publicKeyHandlerRun a ctx key).2 :=
  ⟨rfl, rfl⟩

/-! ## Decimal round-trip lemmas for the bind-address parser -/

/-- The numeral character of a digit has the expected code point. -/
lemma dChar_toNat {d : Nat} (h : d < 10) : (dChar d).toNat = 48 + d := by
  interval_cases d <;> decide

/-- The digit loop distributes over list append. -/
lemma puGo_append (l₁ l₂ : Str) : ∀ acc,
    puGo acc (l₁ ++ l₂) = (puGo acc l₁).bind fun a => puGo a l₂ := by
  induction l₁ with
  | nil => intro acc; rfl
  | cons c r ih =>
    intro acc
    by_cases h : 48 ≤ c.toNat ∧ c.toNat ≤ 57
    · simp [puGo, h, ih]
    · simp [puGo, h]

/-- Unfolding equation of decRev at a non-zero argument. -/
lemma decRev_succ {n : Nat} (h : n ≠ 0) :
    decRev n = dChar (n % 10) :: decRev (n / 10) := by
  rw [decRev, if_neg h]

/-- The digit loop reads the printed digits back as the printed number. -/
lemma puGo_decRev : ∀ n acc,
    puGo acc (decRev n).reverse = some (acc * 10 ^ (decRev n).length + n) := by
  intro n
  induction n using Nat.strong_induction_on with
  | _ n ih =>
    intro acc
    by_cases h : n = 0
    · subst h
      simp [decRev, puGo]
    · rw [decRev_succ h, List.reverse_cons, List.length_cons, puGo_append,
        ih (n / 10) (Nat.div_lt_self (Nat.pos_of_ne_zero h) (by decide))]
      have hd : (dChar (n % 10)).toNat = 48 + n % 10 :=
        dChar_toNat (Nat.mod_lt n (by decide))
      have hdig : 48 ≤ (dChar (n % 10)).toNat ∧ (dChar (n % 10)).toNat ≤ 57 := by
        constructor <;> omega
      simp only [Option.some_bind, puGo, hdig, if_pos, hd]
      have harith : (acc * 10 ^ (decRev (n / 10)).length + n / 10) * 10
          + (48 + n % 10 - 48)
          = acc * 10 ^ ((decRev (n / 10)).length + 1) + n := by
        have hmod : 10 * (n / 10) + n % 10 = n := Nat.div_add_mod n 10
        have hpow : 10 ^ ((decRev (n / 10)).length + 1)
            = 10 ^ (decRev (n / 10)).length * 10 := pow_succ 10 _
        rw [hpow]
        ring_nf
        omega
      rw [harith, if_pos (show 48 ≤ 48 + n % 10 ∧ 48 + n % 10 ≤ 57 by omega)]

/-- Every printed character is a decimal digit. -/
lemma decRev_digits : ∀ n, ∀ c ∈ decRev n, 48 ≤ c.toNat ∧ c.toNat ≤ 57 := by
  intro n
  induction n using Nat.strong_induction_on with
  | _ n ih =>
    intro c hc
    by_cases h : n = 0
    · subst h
      simp [decRev] at hc
    · rw [decRev_succ h] at hc
      rcases List.mem_cons.mp hc with he | hm
      · subst he
        have hd : (dChar (n % 10)).toNat = 48 + n % 10 :=
          dChar_toNat (Nat.mod_lt n (by decide))
        omega
      · exact ih (n / 10) (Nat.div_lt_self (Nat.pos_of_ne_zero h) (by decide)) c hm

/-- Go's Atoi, with its error discarded, reads the decimal print of a
positive number as a positive value (clamped on int64 overflow). -/
lemma atoiGo_decimalOf {n : Nat} (h : 0 < n) : 0 < atoiGo (decimalOf n) := by
  have hne : n ≠ 0 := h.ne'
  rw [decimalOf, if_neg hne]
  cases hl : (decRev n).reverse with
  | nil =>
    exfalso
    rw [List.reverse_eq_nil_iff, decRev_succ hne] at hl
    cases hl
  | cons c rest =>
    have hcmem : c ∈ decRev n := by
      have : c ∈ (decRev n).reverse := by
        rw [hl]
        exact List.mem_cons_self c rest
      simpa using this
    have hdig := decRev_digits n c hcmem
    have hplus : ¬ c = '+' := by
      intro e
      rw [e] at hdig
      revert hdig
      decide
    have hminus : ¬ c = '-' := by
      intro e
      rw [e] at hdig
      revert hdig
      decide
    have hpu : parseUintGo (c :: rest) = some n := by
      rw [parseUintGo, if_neg (by simp), ← hl, puGo_decRev n 0]
      simp
    have hval : atoiGo (c :: rest) = min (n : Int) (2 ^ 63 - 1) := by
      simp [atoiGo, hplus, hminus, atoiMag, hpu]
    rw [hval]
    have h1 : (0 : Int) < n := by exact_mod_cast h
    have h2 : (0 : Int) < 2 ^ 63 - 1 := by decide
    exact lt_min h1 h2

/-- Cutting at the separator that follows a separator-free chunk. -/
lemma cutSlash_append (host rest : Str) (h : '/' ∉ host) :
    cutSlash (host ++ '/' :: rest) = some (host, rest) := by
  induction host with
  | nil => simp [cutSlash]
  | cons c r ih =>
    have hc : ¬ c = '/' := by
      intro e
      exact h (by rw [e]; exact List.mem_cons_self _ _)
    have hr : '/' ∉ r := fun m => h (List.mem_cons_of_mem c m)
    simp [cutSlash, hc, ih hr]

/-- C3: for every host without a slash and every positive port,
ConvertBindAddressToHostPort applied to "/" ++ host ++ "/" ++ decimal(port)
succeeds and returns (host, decimal(port)) verbatim, and
ConvertHostPortToSocket — a pure function of its arguments — returns the
same key on every call with the same arguments. -/
theorem bind_roundtrip_and_key_deterministic (dir host : Str) (port : Nat)
    (hh : '/' ∉ host) (hp : 0 < port) :
    convertBindAddressToHostPort ('/' :: (host ++ '/' :: decimalOf port))
        = some (host, decimalOf port) ∧
    convertHostPortToSocket dir host (decimalOf port)
        = convertHostPortToSocket dir host (decimalOf port) := by
  refine ⟨?_, rfl⟩
  have hcut := cutSlash_append host (decimalOf port) hh
  have hpos := atoiGo_decimalOf hp
  simp [convertBindAddressToHostPort, trimLeadSlash, hcut, not_le.mpr hpos]

/-- Witness for bind_roundtrip_and_key_deterministic at host "app", port 8080. -/
theorem bind_roundtrip_and_key_deterministic_witness :
    convertBindAddressToHostPort
        ('/' :: (['a', 'p', 'p'] ++ '/' :: decimalOf 8080))
        = some (['a', 'p', 'p'], decimalOf 8080) ∧
    convertHostPortToSocket [] ['a', 'p', 'p'] (decimalOf 8080)
        = convertHostPortToSocket [] ['a', 'p', 'p'] (decimalOf 8080) :=
  bind_roundtrip_and_key_deterministic [] ['a', 'p', 'p'] 8080 (by decide) (by decide)

/-! ## Structure lemmas for filepath.Clean, towards key injectivity -/

/-- Splitting never produces an empty segment list. -/
lemma splitSlash_ne_nil : ∀ l : Str, splitSlash l ≠ [] := by
  intro l
  cases l with
  | nil => simp [splitSlash]
  | cons c r => by_cases h : c = '/' <;> simp [splitSlash, h]

/-- Splitting distributes over a separator in the middle. -/
lemma splitSlash_append (a b : Str) :
    splitSlash (a ++ '/' :: b) = splitSlash a ++ splitSlash b := by
  induction a with
  | nil => simp [splitSlash]
  | cons c r ih =>
    by_cases h : c = '/'
    · simp [splitSlash, h, ih]
    · cases hr : splitSlash r with
      | nil => exact absurd hr (splitSlash_ne_nil r)
      | cons s ss =>
        have lhs : splitSlash ((c :: r) ++ '/' :: b)
            = (c :: (splitSlash (r ++ '/' :: b)).headI)
              :: (splitSlash (r ++ '/' :: b)).tail := by
          simp [splitSlash, h]
        have rhs : splitSlash (c :: r)
            = (c :: (splitSlash r).headI) :: (splitSlash r).tail := by
          simp [splitSlash, h]
        rw [lhs, rhs, ih, hr]
        simp

/-- A separator-free chunk is one segment. -/
lemma splitSlash_no_slash (l : Str) (h : '/' ∉ l) : splitSlash l = [l] := by
  induction l with
  | nil => rfl
  | cons c r ih =>
    have hc : ¬ c = '/' := by
      intro e
      exact h (by rw [e]; exact List.mem_cons_self _ _)
    have hr : '/' ∉ r := fun m => h (List.mem_cons_of_mem c m)
    simp [splitSlash, hc, ih hr]

/-- A real segment — non-empty, not dot, not dot-dot — is pushed. -/
lemma cleanStep_push (rooted : Bool) (stack : List Str) (n : Str)
    (h1 : n ≠ []) (h2 : n ≠ ['.']) (h3 : n ≠ ['.', '.']) :
    cleanStep rooted stack n = n :: stack := by
  simp [cleanStep, h1, h2, h3]

/-- Joining after appending one last segment. -/
lemma joinSlash_concat (xs : List Str) (y : Str) :
    joinSlash (xs ++ [y])
      = (if xs = [] then y else joinSlash xs ++ '/' :: y) := by
  induction xs with
  | nil => simp [joinSlash]
  | cons x xs' ih =>
    cases xs' with
    | nil => simp [joinSlash]
    | cons z zs =>
      have e1 : joinSlash ((x :: z :: zs) ++ [y])
          = x ++ '/' :: joinSlash ((z :: zs) ++ [y]) := rfl
      rw [if_neg (List.cons_ne_nil x (z :: zs)), e1, ih,
        if_neg (List.cons_ne_nil z zs)]
      show x ++ '/' :: (joinSlash (z :: zs) ++ '/' :: y)
          = (x ++ '/' :: joinSlash (z :: zs)) ++ '/' :: y
      simp

/-- For a fixed directory, filepath.Join appends real separator-free file
names after a fixed cleaned prefix.  This is the skeleton that makes the
socket key injective in the file name. -/
lemma filepathJoin_skeleton (dir : Str) :
    ∃ Q : Str, ∀ n : Str, '/' ∉ n → n ≠ [] → n ≠ ['.'] → n ≠ ['.', '.'] →
      filepathJoin dir n = Q ++ n := by
  by_cases hd : dir = []
  · subst hd
    refine ⟨[], ?_⟩
    intro n hs hne h2 h3
    have hroot : isRooted n = false := by
      cases n with
      | nil => rfl
      | cons c r =>
        have : ¬ c = '/' := by
          intro e
          exact hs (by rw [e]; exact List.mem_cons_self _ _)
        simp [isRooted, this]
    simp only [filepathJoin, if_pos rfl, if_neg hne]
    simp only [cleanList, if_neg hne, hroot, splitSlash_no_slash n hs, cleanFold,
      List.foldl_cons, List.foldl_nil, cleanStep_push false [] n hne h2 h3,
      List.reverse_cons, List.reverse_nil, List.nil_append, joinSlash,
      if_neg hne, Bool.false_eq_true, if_false]
    simp [hne]
  · refine ⟨(if isRooted dir then ['/'] else []) ++
      (if (cleanFold (isRooted dir) [] (splitSlash dir)).reverse = [] then []
       else joinSlash (cleanFold (isRooted dir) [] (splitSlash dir)).reverse ++ ['/']), ?_⟩
    intro n hs hne h2 h3
    have hroot : isRooted (dir ++ '/' :: n) = isRooted dir := by
      cases dir with
      | nil => exact absurd rfl hd
      | cons c r => rfl
    have hsegs : splitSlash (dir ++ '/' :: n) = splitSlash dir ++ [n] := by
      rw [splitSlash_append, splitSlash_no_slash n hs]
    have hfold : cleanFold (isRooted dir) [] (splitSlash dir ++ [n])
        = n :: cleanFold (isRooted dir) [] (splitSlash dir) := by
      rw [cleanFold, List.foldl_append, List.foldl_cons, List.foldl_nil,
        cleanStep_push _ _ n hne h2 h3]
      rfl
    have happ : dir ++ '/' :: n ≠ [] := by simp
    rw [filepathJoin, if_neg hd]
    simp only [cleanList, if_neg happ, hroot, hsegs, hfold, List.reverse_cons]
    rw [joinSlash_concat]
    by_cases hrev : (cleanFold (isRooted dir) [] (splitSlash dir)).reverse = []
    · have hnnil : (if isRooted dir = true then ['/'] else []) ++ n ≠ [] := by
        intro hcon
        exact hne (List.append_eq_nil.mp hcon).2
      simp [hrev, hnnil]
    · have hnnil : (if isRooted dir = true then ['/'] else []) ++
          (joinSlash (cleanFold (isRooted dir) [] (splitSlash dir)).reverse
            ++ '/' :: n) ≠ [] := by
        simp
      simp [hrev, hnnil, List.append_assoc]

/-- Splitting a string at a separator character absent from both prefixes is
unambiguous. -/
lemma append_sep_inj (c : Char) : ∀ (a₁ a₂ b₁ b₂ : Str), c ∉ a₁ → c ∉ a₂ →
    a₁ ++ c :: b₁ = a₂ ++ c :: b₂ → a₁ = a₂ ∧ b₁ = b₂ := by
  intro a₁
  induction a₁ with
  | nil =>
    intro a₂ b₁ b₂ h1 h2 he
    cases a₂ with
    | nil => simpa using he
    | cons x r =>
      simp only [List.nil_append, List.cons_append, List.cons.injEq] at he
      exact absurd (by rw [he.1]; exact List.mem_cons_self _ _) h2
  | cons x r ih =>
    intro a₂ b₁ b₂ h1 h2 he
    cases a₂ with
    | nil =>
      simp only [List.nil_append, List.cons_append, List.cons.injEq] at he
      exact absurd (by rw [← he.1]; exact List.mem_cons_self _ _) h1
    | cons y s =>
      simp only [List.cons_append, List.cons.injEq] at he
      have hr1 : c ∉ r := fun m => h1 (List.mem_cons_of_mem x m)
      have hs2 : c ∉ s := fun m => h2 (List.mem_cons_of_mem y m)
      have := ih s b₁ b₂ hr1 hs2 he.2
      exact ⟨by rw [he.1, this.1], this.2⟩

/-- The socket file name contains no separator when host and port do not. -/
lemma socketFileName_no_slash {h p : Str} (hh : '/' ∉ h) (hp : '/' ∉ p) :
    '/' ∉ socketFileName h p := by
  intro hmem
  simp only [socketFileName, List.mem_append, List.mem_cons] at hmem
  rcases hmem with h1 | h1 | h1 | h1
  · exact hh h1
  · exact absurd h1 (by decide)
  · exact hp h1
  · revert h1
    decide

/-- The socket file name is long enough to be a real segment. -/
lemma socketFileName_long (h p : Str) :
    socketFileName h p ≠ [] ∧ socketFileName h p ≠ ['.']
      ∧ socketFileName h p ≠ ['.', '.'] := by
  refine ⟨?_, ?_, ?_⟩ <;>
  · intro e
    have := congrArg List.length e
    simp only [socketFileName, List.length_append, List.length_cons,
      List.length_nil] at this
    omega

/-- C8 counterexample: the key derivation of ConvertHostPortToSocket is not
injective — the distinct pairs ("a_b", "c") and ("a", "b_c") map to the same
key under directory "/tmp". -/
theorem socket_key_collision :
    ((['a', '_', 'b'], ['c']) : Str × Str) ≠ ((['a'], ['b', '_', 'c']) : Str × Str) ∧
    (convertHostPortToSocket ['/', 't', 'm', 'p'] ['a', '_', 'b'] ['c']).1
      = (convertHostPortToSocket ['/', 't', 'm', 'p'] ['a'] ['b', '_', 'c']).1 :=
  ⟨by decide, by decide⟩

/-- C8 amended: restricted to (host, port) pairs whose host contains neither
an underscore nor a slash and whose port contains no slash, the key
derivation is injective: distinct pairs give distinct keys under any fixed
unix directory. -/
theorem socket_key_injective_on_separator_free_pairs (dir h₁ p₁ h₂ p₂ : Str)
    (hu₁ : '_' ∉ h₁) (hs₁ : '/' ∉ h₁) (hq₁ : '/' ∉ p₁)
    (hu₂ : '_' ∉ h₂) (hs₂ : '/' ∉ h₂) (hq₂ : '/' ∉ p₂)
    (hne : ((h₁, p₁) : Str × Str) ≠ (h₂, p₂)) :
    (convertHostPortToSocket dir h₁ p₁).1 ≠ (convertHostPortToSocket dir h₂ p₂).1 := by
  intro he
  obtain ⟨Q, hQ⟩ := filepathJoin_skeleton dir
  obtain ⟨hb₁, hc₁, hd₁⟩ := socketFileName_long h₁ p₁
  obtain ⟨hb₂, hc₂, hd₂⟩ := socketFileName_long h₂ p₂
  have he' : filepathJoin dir (socketFileName h₁ p₁)
      = filepathJoin dir (socketFileName h₂ p₂) := he
  rw [hQ _ (socketFileName_no_slash hs₁ hq₁) hb₁ hc₁ hd₁,
    hQ _ (socketFileName_no_slash hs₂ hq₂) hb₂ hc₂ hd₂] at he'
  have hn : socketFileName h₁ p₁ = socketFileName h₂ p₂ :=
    List.append_cancel_left he'
  rw [socketFileName, socketFileName] at hn
  obtain ⟨eh, ep'⟩ := append_sep_inj '_' h₁ h₂ _ _ hu₁ hu₂ hn
  have ep : p₁ = p₂ := List.append_cancel_right ep'
  exact hne (by rw [eh, ep])

/-- Witness for socket_key_injective_on_separator_free_pairs at two concrete
distinct pairs. -/
theorem socket_key_injective_on_separator_free_pairs_witness :
    (convertHostPortToSocket ['/', 't'] ['a'] ['1']).1
      ≠ (convertHostPortToSocket ['/', 't'] ['b'] ['1']).1 :=
  socket_key_injective_on_separator_free_pairs ['/', 't'] ['a'] ['1'] ['b'] ['1']
    (by decide) (by decide) (by decide) (by decide) (by decide) (by decide) (by decide)

end SRP
